import Mathlib

/-!
Verification of the install pipeline of jabba (src/command/install.go).

Strings are modelled as lists of characters (Str) so that every operation
is executable by the kernel.  Side effects (network, filesystem, external
collaborators such as Ls and LsRemote) are modelled by an explicit
environment of oracles, and the observable filesystem / download effects
are collected in an action trace.
-/

namespace Jabba

/-- Strings are modelled as lists of characters. -/
abbrev Str := List Char

/-- Coercion from string literals to the character-list model. -/
def str (s : String) : Str := s.data

/-- Modelled from the spec: the semver collaborator's Version value
(major.minor.patch).  Pre-release/build metadata, which the spec mentions as
optional, is not exercised by any claim and is omitted.  Equality is
structural, as the spec requires. -/
structure Version where
  major : Nat
  minor : Nat
  patch : Nat
deriving DecidableEq

/-- Printed form MAJOR.MINOR.PATCH of a version (Version.String in Go). -/
def Version.toStr (v : Version) : Str :=
  (Nat.repr v.major).data ++ '.' :: (Nat.repr v.minor).data ++ '.' :: (Nat.repr v.patch).data

/-- Modelled from the spec: the semver total order used for sorting
(lexicographic on major, minor, patch). -/
def Version.le (a b : Version) : Prop :=
  a.major < b.major ∨ (a.major = b.major ∧
    (a.minor < b.minor ∨ (a.minor = b.minor ∧ a.patch ≤ b.patch)))

instance : DecidableRel Version.le := fun a b => by unfold Version.le; infer_instance

/-- Structural equality test (Version.Equals in the semver collaborator). -/
def Version.Equals (a b : Version) : Bool := decide (a = b)

/-- Splitting a character list on a separator character; the result always
has one more segment than the number of separators. -/
def splitOnChar (sep : Char) : Str → List Str
  | [] => [[]]
  | c :: t =>
    if c = sep then [] :: splitOnChar sep t
    else
      match splitOnChar sep t with
      | [] => [[c]]
      | h :: r => (c :: h) :: r

/-- Numeric parse of a non-empty all-digit character list. -/
def parseNatL (s : Str) : Option Nat :=
  if !s.isEmpty && s.all Char.isDigit then
    some (s.foldl (fun n c => n * 10 + (c.toNat - 48)) 0)
  else
    none

/-- Modelled from the spec: semver.ParseVersion, accepting exactly
MAJOR.MINOR.PATCH with numeric components. -/
def ParseVersion (s : Str) : Except Str Version :=
  match splitOnChar '.' s with
  | [a, b, c] =>
    match parseNatL a, parseNatL b, parseNatL c with
    | some x, some y, some z => .ok ⟨x, y, z⟩
    | _, _, _ => .error (str "invalid version: " ++ s)
  | _ => .error (str "invalid version: " ++ s)

/-- Modelled from the spec: a Range is a predicate over versions built from a
selector; the claims exercise exact ranges and caret ranges. -/
inductive Range where
  | exact (v : Version)
  | caret (v : Version)
deriving DecidableEq

/-- Modelled from the spec: semver.ParseRange; a caret selector is a '^'
followed by a version, otherwise the selector must be an exact version. -/
def ParseRange (s : Str) : Except Str Range :=
  match s with
  | '^' :: rest => (ParseVersion rest).map .caret
  | _ => (ParseVersion s).map .exact

/-- Modelled from the spec: Range.Contains; a caret range matches versions
with the same major component that are at least the base version. -/
def Range.Contains (r : Range) (v : Version) : Bool :=
  match r with
  | .exact w => decide (v = w)
  | .caret w => decide (v.major = w.major) && decide (Version.le w v)

/-- Observable side effects performed by Install. -/
inductive Action where
  | download (url : Str)
  | dispatch (ver : Str)
  | removeFile (p : Str)
deriving DecidableEq

/-- Result of Install: the returned string, the returned error, and the
trace of observable side effects. -/
structure InstallResult where
  ver : Str
  err : Option Str
  trace : List Action
deriving DecidableEq

/-- Oracles for the external collaborators of Install: Ls, LsRemote, the
network transfer performed by download, the host OS, and the outcome of the
per-OS installers (modelled separately in detail below). -/
structure Env where
  ls : Except Str (List Version)
  lsRemote : Except Str (List (Version × Str))
  dl : Str → Except Str Str
  goos : Str
  darwinInstall : Str → Str → Str → Option Str
  linuxInstall : Str → Str → Str → Option Str

/-- Word character of the regular expression used at install.go line 87
(ASCII letter, digit or underscore). -/
def isWordChar (c : Char) : Bool := c.isAlphanum || c == '_'

/-- Test of install.go line 87: the source string matches the anchored
pattern of one-or-more word characters, a plus, one-or-more word characters
and the literal colon-slash-slash.  Since neither the plus nor the colon is
a word character, greedy scanning is exact. -/
def urlQualifierOk (url : Str) : Bool :=
  let w1 := url.takeWhile isWordChar
  let rest := url.drop w1.length
  match rest with
  | '+' :: rest2 =>
    let w2 := rest2.takeWhile isWordChar
    !w1.isEmpty && !w2.isEmpty && (str "://").isPrefixOf (rest2.drop w2.length)
  | _ => false

/-- strings.TrimPrefix of the Go standard library. -/
def trimPfx (p s : Str) : Str := if p.isPrefixOf s then s.drop p.length else s

/-- Descending order on catalog entries, comparing the version keys
(sort.Sort(sort.Reverse(semver.VersionSlice(vs))) at install.go line 70). -/
def descRel (a b : Version × Str) : Prop := Version.le b.1 a.1

instance : DecidableRel descRel := fun a b => by unfold descRel Version.le; infer_instance

instance : IsTotal (Version × Str) descRel := ⟨by intro a b; unfold descRel Version.le; omega⟩

instance : IsTrans (Version × Str) descRel := ⟨by intro a b c; unfold descRel Version.le; omega⟩

/-- Catalog entries sorted by descending version (install.go line 70). -/
def sortDesc (catalog : List (Version × Str)) : List (Version × Str) :=
  List.insertionSort descRel catalog

/-- Platform dispatch and temp-file cleanup, install.go lines 104-115: run
the per-OS installer (or fail on an unsupported OS), delete the staged file
only when the installer succeeded and the file was downloaded, and return
the resolved version string together with the error. -/
def dispatchErr (env : Env) (vs file fileType : Str) : Option Str :=
  if env.goos = str "darwin" then env.darwinInstall vs file fileType
  else if env.goos = str "linux" then env.linuxInstall vs file fileType
  else some (env.goos ++ str " OS is not supported")

def dispatchStep (env : Env) (ver : Version) (file fileType : Str)
    (deleteFileWhenFinnished : Bool) (tr : List Action) : InstallResult :=
  let vs := ver.toStr
  let err := dispatchErr env vs file fileType
  let tr := tr ++ [Action.dispatch vs]
  if err.isNone && deleteFileWhenFinnished then ⟨vs, err, tr ++ [Action.removeFile file]⟩
  else ⟨vs, err, tr⟩

/-- Qualifier validation and acquisition, install.go lines 86-103: reject a
source lacking the archive-type qualifier, split off the qualifier, then
either use a local file directly or download the URL to a staged file. -/
def installFromUrl (env : Env) (ver : Version) (url : Str) : InstallResult :=
  if urlQualifierOk url then
    let fileType := url.takeWhile (fun c => c != '+')
    let rest := (url.dropWhile (fun c => c != '+')).drop 1
    if (str "file://").isPrefixOf rest then
      dispatchStep env ver (trimPfx (str "file://") rest) fileType false []
    else
      match env.dl rest with
      | .error e => ⟨[], some e, [Action.download rest]⟩
      | .ok file => dispatchStep env ver file fileType true [Action.download rest]
  else ⟨[], some (str "URL must contain qualifier, e.g. tgz+http://..."), []⟩

/-- Remote resolution, install.go lines 54-85: parse the selector as a
range, fetch the catalog, sort its entries by descending version, take the
first entry whose version the range contains, and fail with the list of all
catalog versions when none matches. -/
def installResolve (env : Env) (selector : Str) : InstallResult :=
  match ParseRange selector with
  | .error e => ⟨[], some e, []⟩
  | .ok rng =>
    match env.lsRemote with
    | .error e => ⟨[], some e, []⟩
    | .ok catalog =>
      let vs := sortDesc catalog
      match vs.find? (fun e => rng.Contains e.1) with
      | some e => installFromUrl env e.1 e.2
      | none =>
        ⟨[], some (str "No compatible version found for " ++ selector ++
          str "\nValid install targets: " ++
          List.intercalate (str ", ") (vs.map (fun e => e.1.toStr))), []⟩

/-- Top-level Install, install.go lines 23-116: pin detection, the
already-installed short-circuit over Ls, then remote resolution (for a
non-pin selector) or direct use of the pinned URL. -/
def Install (env : Env) (selector0 : Str) : InstallResult :=
  if selector0.contains '=' then
    let selector := selector0.takeWhile (fun c => c != '=')
    let url := (selector0.dropWhile (fun c => c != '=')).drop 1
    match ParseVersion selector with
    | .error e => ⟨[], some e, []⟩
    | .ok ver =>
      match env.ls with
      | .error e => ⟨[], some e, []⟩
      | .ok installed =>
        if installed.any (fun v => ver.Equals v) then ⟨ver.toStr, none, []⟩
        else installFromUrl env ver url
  else
    match ParseVersion selector0 with
    | .error _ => installResolve env selector0
    | .ok ver =>
      match env.ls with
      | .error e => ⟨[], some e, []⟩
      | .ok installed =>
        if installed.any (fun v => ver.Equals v) then ⟨ver.toStr, none, []⟩
        else installResolve env selector0

/-- Observable filesystem effects of the per-OS installers and of unzip. -/
inductive FsAction where
  | removeAll (p : Str)
  | mkdirAll (p : Str)
  | writeFile (p : Str)
deriving DecidableEq

/-- Oracles for the per-OS installers: the configured install root
(cfg.Dir()), the outcome of each extraction strategy, and whether a given
path exists on disk (os.Stat). -/
structure OsEnv where
  cfgDir : Str
  binRes : Str → Str → Option Str
  tgzRes : Str → Str → Option Str
  zipRes : Str → Str → Option Str
  dmgRes : Str → Str → Option Str
  pathExists : Str → Bool
deriving Inhabited

/-- Post-extraction validation, install.go lines 353-361: the install is
valid only when bin/java exists under the given directory.  Failures of
os.Stat other than non-existence are not distinguished by this model. -/
def assertContentIsValid (env : OsEnv) (target : Str) : Option Str :=
  if env.pathExists (target ++ str "/bin/java") then none
  else
    some (str ("<target>/bin/java wasn't found. " ++
      "If you believe this is an error - please create a ticket at https://github.com/shyiko/jabba/issue " ++
      "(specify OS and version/URL you tried to install)"))

/-- Validation followed by cleanup-on-failure, install.go lines 247-253:
after a successful extraction run validation against the home directory,
and on any remaining error remove the whole target tree. -/
def finishInstall (env : OsEnv) (target home : Str) (e0 : Option Str) :
    Option Str × List FsAction :=
  let e1 :=
    match e0 with
    | none => assertContentIsValid env home
    | some e => some e
  match e1 with
  | some e => (some e, [FsAction.removeAll target])
  | none => (none, [])

/-- Linux installer, install.go lines 235-254: dispatch on the archive
type, validate the target itself as the home directory, and remove the
target tree on extraction or validation failure.  An unsupported archive
type fails before any extraction and without touching the target. -/
def installOnLinux (env : OsEnv) (ver file fileType : Str) :
    Option Str × List FsAction :=
  let target := env.cfgDir ++ str "/jdk/" ++ ver
  if fileType = str "bin" then finishInstall env target target (env.binRes file target)
  else if fileType = str "tgz" then finishInstall env target target (env.tgzRes file target)
  else if fileType = str "zip" then finishInstall env target target (env.zipRes file target)
  else (some (fileType ++ str " is not supported"), [])

/-- Darwin installer, install.go lines 179-196: dispatch on the archive
type (dmg extracts into the target, zip directly into Contents/Home),
validate Contents/Home, and remove the target tree on extraction or
validation failure. -/
def installOnDarwin (env : OsEnv) (ver file fileType : Str) :
    Option Str × List FsAction :=
  let target := env.cfgDir ++ str "/jdk/" ++ ver
  let home := target ++ str "/Contents/Home"
  if fileType = str "dmg" then finishInstall env target home (env.dmgRes file target)
  else if fileType = str "zip" then finishInstall env target home (env.zipRes file home)
  else (some (fileType ++ str " is not supported"), [])

/-- HTTP response as seen by download: the status line and the declared
content length; the body itself is abstracted by the copy oracle. -/
structure HttpResponse where
  statusCode : Nat
  contentLength : Int
deriving DecidableEq

/-- Oracles for download: the result of creating the temporary file
(ioutil.TempFile), the result of performing the request (client.Do, whose
errors include the redirect-limit error raised by checkRedirect), and the
result of streaming the response body into the file (io.Copy). -/
structure DlEnv where
  tempFile : Except Str Str
  doResult : Except Str HttpResponse
  copyRes : Option Str

/-- Redirect callback of download, install.go lines 147-160: fail after ten
redirects, otherwise carry every header of the original request that the
redirected request does not already have. -/
def checkRedirect (req : List (Str × Str)) (via : List (List (Str × Str))) :
    Except Str (List (Str × Str)) :=
  if via.length ≥ 10 then .error (str "too many redirects")
  else
    match via with
    | [] => .ok req
    | first :: _ =>
      .ok (first.foldl (fun h kv => if (h.lookup kv.1).isSome then h else h ++ [kv]) req)

/-- Download engine, install.go lines 138-177: create a temporary file,
perform the request, and stream the body into the file.  The status code of
the response is never examined.  Go named-return semantics make the
function return the already-created file name alongside any later error. -/
def download (env : DlEnv) (url : Str) : Str × Option Str :=
  match env.tempFile with
  | .error e => ([], some e)
  | .ok file =>
    match env.doResult with
    | .error e => (file, some e)
    | .ok _ =>
      match env.copyRes with
      | some e => (file, some e)
      | none => (file, none)

/-- Replacement of the status code inside the response of a download
environment, leaving everything else unchanged. -/
def setStatus (env : DlEnv) (n : Nat) : DlEnv :=
  { env with doResult := env.doResult.map (fun r => { r with statusCode := n }) }

/-- Zip archive entry: its path inside the archive and whether its recorded
mode marks it as a directory. -/
structure ZipEntry where
  name : Str
  isDir : Bool
deriving DecidableEq

/-- Level of an entry, install.go lines 296-304: the number of slashes in
its path, plus one for a non-directory entry. -/
def entryLevel (f : ZipEntry) : Nat :=
  let slashes := f.name.count '/'
  if f.isDir then slashes else slashes + 1

/-- Association-list model of a Go map: update the value at a key in place,
appending a new binding when the key is absent. -/
def mapPut {α : Type} (m : List (Nat × α)) (k : Nat) (v : α) : List (Nat × α) :=
  match m with
  | [] => [(k, v)]
  | (k1, v1) :: t => if k1 = k then (k, v) :: t else (k1, v1) :: mapPut t k v

/-- Map access with the Go zero-value default for an absent key. -/
def mapGetD {α : Type} (m : List (Nat × α)) (k : Nat) (d : α) : α :=
  match m with
  | [] => d
  | (k1, v1) :: t => if k1 = k then v1 else mapGetD t k d

/-- One iteration of the scanning loop of unzip, install.go lines 295-308:
count the entry at its level and, for a directory entry, remember its name
as the latest directory seen at that level. -/
def zipStep (acc : List (Nat × Nat) × List (Nat × Str)) (f : ZipEntry) :
    List (Nat × Nat) × List (Nat × Str) :=
  let l := entryLevel f
  (mapPut acc.1 l (mapGetD acc.1 l 0 + 1),
   if f.isDir then mapPut acc.2 l f.name else acc.2)

/-- The two maps built by unzip over all entries (entriesPerLevel and
prefixMap of install.go lines 293-308). -/
def zipScanMaps (entries : List ZipEntry) : List (Nat × Nat) × List (Nat × Str) :=
  entries.foldl zipStep ([], [])

/-- Choice of the prefix to strip, install.go lines 291-314: scan levels i
from zero while i is below the number of distinct levels present, and at
the first level with more than one entry (and i positive) pick the
directory name recorded one level up. -/
def prefixToStrip (entries : List ZipEntry) : Str :=
  let maps := zipScanMaps entries
  match (List.range maps.1.length).find?
      (fun i => decide (1 < mapGetD maps.1 i 0) && decide (0 < i)) with
  | some i => mapGetD maps.2 (i - 1) []
  | none => []

/-- Go path.Join for the clean relative names produced by archives: empty
second component yields the first unchanged, and a trailing slash of the
second component is dropped. -/
def pathJoin (a b : Str) : Str :=
  if b = [] then a
  else if b.getLast? = some '/' then a ++ '/' :: b.dropLast
  else a ++ '/' :: b

/-- Extraction pass of unzip, install.go lines 285-337, as the list of
filesystem effects: with stripping enabled compute the prefix to strip, and
write every entry (directories via MkdirAll, files via file creation) at
its joined, prefix-trimmed path.  The I/O error paths of the Go code are
not modelled; the effect list describes a successful pass. -/
def unzip (target : Str) (entries : List ZipEntry) (strip : Bool) : List FsAction :=
  let pts := if strip then prefixToStrip entries else []
  entries.map (fun f =>
    let name := trimPfx pts f.name
    if f.isDir then FsAction.mkdirAll (pathJoin target name)
    else FsAction.writeFile (pathJoin target name))

/-- Slash-separated segments of a path. -/
def segmentsOf (s : Str) : List Str := splitOnChar '/' s

/-- Depth of an entry as the specification words it: the number of
slash-separated segments of its path, where a file counts its own name as
the deepest segment and a directory does not. -/
def specDepth (e : ZipEntry) : Nat :=
  if e.isDir then (segmentsOf e.name).length - 1 else (segmentsOf e.name).length

/-- Tally of the specification: the number of entries at a given depth. -/
def specCountAt (entries : List ZipEntry) (i : Nat) : Nat :=
  entries.countP (fun e => specDepth e == i)

/-- Record of the specification: the name of the last directory entry
observed at a given depth (empty when none exists). -/
def specLastDirAt (entries : List ZipEntry) (i : Nat) : Str :=
  match entries.reverse.find? (fun e => e.isDir && specDepth e == i) with
  | some e => e.name
  | none => []

/-- Largest depth of any entry of the archive. -/
def specMaxDepth (entries : List ZipEntry) : Nat :=
  entries.foldr (fun e m => max (specDepth e) m) 0

/-- Prefix choice exactly as the claim words it: scanning depths from 0
upward without bound, pick at the first depth i with more than one entry
and i positive the directory name recorded at depth i-1, and strip nothing
when no such depth exists.  Since no depth beyond the maximum holds any
entry, scanning up to the maximum is the same as scanning unboundedly. -/
def specStripClaimed (entries : List ZipEntry) : Str :=
  match (List.range (specMaxDepth entries + 1)).find?
      (fun i => decide (1 < specCountAt entries i) && decide (0 < i)) with
  | some i => specLastDirAt entries (i - 1)
  | none => []

/-- Extraction effects as the claim words them: every entry is written at
its path with the claimed prefix stripped. -/
def specUnzipClaimed (target : Str) (entries : List ZipEntry) : List FsAction :=
  entries.map (fun f =>
    let name := trimPfx (specStripClaimed entries) f.name
    if f.isDir then FsAction.mkdirAll (pathJoin target name)
    else FsAction.writeFile (pathJoin target name))

/-- Prefix choice as the amended claim words it: identical to the claimed
procedure except that depths are scanned only while below the number of
distinct depths present among the entries. -/
def specStripAmended (entries : List ZipEntry) : Str :=
  match (List.range ((entries.map specDepth).dedup.length)).find?
      (fun i => decide (1 < specCountAt entries i) && decide (0 < i)) with
  | some i => specLastDirAt entries (i - 1)
  | none => []

/-- Extraction effects as the amended claim words them. -/
def specUnzipAmended (target : Str) (entries : List ZipEntry) : List FsAction :=
  entries.map (fun f =>
    let name := trimPfx (specStripAmended entries) f.name
    if f.isDir then FsAction.mkdirAll (pathJoin target name)
    else FsAction.writeFile (pathJoin target name))

/-- Archive of the counterexample to the unbounded scan: one directory per
level and every file two levels below the deepest directory. -/
def deepArchive : List ZipEntry :=
  [⟨str "a/", true⟩, ⟨str "a/b/", true⟩, ⟨str "a/b/f1", false⟩, ⟨str "a/b/f2", false⟩]

/-- Archive whose content sits inside a single wrapping top directory. -/
def wrappedArchive : List ZipEntry :=
  [⟨str "wrapper/", true⟩, ⟨str "wrapper/bin/", true⟩, ⟨str "wrapper/bin/java", false⟩,
   ⟨str "wrapper/lib/", true⟩, ⟨str "wrapper/lib/x.jar", false⟩]

/-- Archive with two top-level directories. -/
def multiTopArchive : List ZipEntry :=
  [⟨str "a/", true⟩, ⟨str "a/file1", false⟩, ⟨str "b/", true⟩, ⟨str "b/file2", false⟩]

/-- Selector rewriting of install.go lines 28-31: for a pin the version
part before the first equals sign, otherwise the selector itself. -/
def effectiveSelector (s : Str) : Str :=
  if s.contains '=' then s.takeWhile (fun c => c != '=') else s

/-- An install result whose dispatch action, when present, carries exactly
the returned version string, and whose returned string is empty only when
no dispatch was reached. -/
def dispatchConsistent (r : InstallResult) : Prop :=
  (∀ vs, Action.dispatch vs ∈ r.trace → r.ver = vs) ∧
  (r.ver = [] → ∀ vs, Action.dispatch vs ∉ r.trace)

/-- Environment of the already-installed witness: version 1.8.0 is
installed and every other collaborator is unavailable. -/
def c4Env : Env :=
  { ls := .ok [⟨1, 8, 0⟩],
    lsRemote := .error (str "network unavailable"),
    dl := fun _ => .error (str "network unavailable"),
    goos := str "linux",
    darwinInstall := fun _ _ _ => none,
    linuxInstall := fun _ _ _ => none }

/-- Environment of the qualifier witness: nothing is installed and the
other collaborators are irrelevant to the failing path. -/
def c6Env : Env :=
  { ls := .ok [],
    lsRemote := .error (str "network unavailable"),
    dl := fun _ => .error (str "network unavailable"),
    goos := str "linux",
    darwinInstall := fun _ _ _ => none,
    linuxInstall := fun _ _ _ => none }

/-- Environment with a reachable catalog of versions 1.8.0, 1.8.1 and
9.0.0, a working download and a succeeding Linux installer. -/
def caretEnv : Env :=
  { ls := .ok [],
    lsRemote := .ok
      [(⟨1, 8, 0⟩, str "tgz+https://example.com/jdk180"),
       (⟨1, 8, 1⟩, str "tgz+https://example.com/jdk181"),
       (⟨9, 0, 0⟩, str "tgz+https://example.com/jdk900")],
    dl := fun _ => .ok (str "/tmp/jabba-d-1"),
    goos := str "linux",
    darwinInstall := fun _ _ _ => none,
    linuxInstall := fun _ _ _ => none }

/-- Environment of the no-match witness: the catalog holds only 9.0.0. -/
def c7Env : Env :=
  { ls := .ok [],
    lsRemote := .ok [(⟨9, 0, 0⟩, str "tgz+https://example.com/jdk900")],
    dl := fun _ => .error (str "network unavailable"),
    goos := str "linux",
    darwinInstall := fun _ _ _ => none,
    linuxInstall := fun _ _ _ => none }

/-- Environment of the cleanup witness: a tgz whose extraction succeeds
but which contains no bin/java anywhere. -/
def c5Env : OsEnv :=
  { cfgDir := str "/root/.jabba",
    binRes := fun _ _ => none,
    tgzRes := fun _ _ => none,
    zipRes := fun _ _ => none,
    dmgRes := fun _ _ => none,
    pathExists := fun _ => false }

/-- Download environment in which creating the temporary file fails while
the request itself would have been served. -/
def dlEnvBad : DlEnv :=
  { tempFile := .error (str "permission denied"),
    doResult := .ok ⟨200, 1024⟩,
    copyRes := none }

/-- Download environment serving a 404 response whose body is saved. -/
def dlEnv404 : DlEnv :=
  { tempFile := .ok (str "/tmp/jabba-d-2"),
    doResult := .ok ⟨404, 0⟩,
    copyRes := none }

theorem mapGetD_mapPut {α : Type} (m : List (Nat × α)) (k j : Nat) (v d : α) :
    mapGetD (mapPut m k v) j d = if j = k then v else mapGetD m j d := by
  induction m with
  | nil =>
    simp only [mapPut, mapGetD]
    by_cases h : j = k
    · rw [if_pos h.symm, if_pos h]
    · rw [if_neg (Ne.symm h), if_neg h]
  | cons p t ih =>
    obtain ⟨k1, v1⟩ := p
    by_cases h1 : k1 = k
    · simp only [mapPut, if_pos h1, mapGetD]
      by_cases h : j = k
      · rw [if_pos h.symm, if_pos h]
      · rw [if_neg (Ne.symm h), if_neg h, if_neg (fun hh : k1 = j => h ((h1.symm.trans hh).symm))]

    · simp only [mapPut, if_neg h1, mapGetD, ih]
      by_cases h2 : k1 = j
      · rw [if_pos h2, if_neg (fun hh : j = k => h1 (h2.trans hh)), if_pos h2]
      · rw [if_neg h2]
        by_cases h : j = k
        · rw [if_pos h, if_pos h]
        · rw [if_neg h, if_neg h, if_neg h2]

theorem keys_mapPut_mem {α : Type} (m : List (Nat × α)) (k : Nat) (v : α) (j : Nat) :
    (j ∈ (mapPut m k v).map Prod.fst) ↔ j ∈ m.map Prod.fst ∨ j = k := by
  induction m with
  | nil => simp [mapPut]
  | cons p t ih =>
    obtain ⟨k1, v1⟩ := p
    by_cases h : k1 = k
    · subst h
      simp [mapPut]
      tauto
    · simp [mapPut, h, ih]
      tauto

theorem keys_mapPut_nodup {α : Type} (m : List (Nat × α)) (k : Nat) (v : α)
    (h : (m.map Prod.fst).Nodup) : ((mapPut m k v).map Prod.fst).Nodup := by
  induction m with
  | nil => simp [mapPut]
  | cons p t ih =>
    obtain ⟨k1, v1⟩ := p
    simp only [List.map_cons, List.nodup_cons] at h
    by_cases hk : k1 = k
    · simp only [mapPut, if_pos hk, List.map_cons, List.nodup_cons]
      exact ⟨hk ▸ h.1, h.2⟩
    · simp only [mapPut, if_neg hk, List.map_cons, List.nodup_cons]
      refine ⟨?_, ih h.2⟩
      rw [keys_mapPut_mem]
      rintro (hmem | rfl)
      · exact h.1 hmem
      · exact hk rfl

theorem splitOnChar_length (sep : Char) (s : Str) :
    (splitOnChar sep s).length = s.count sep + 1 := by
  induction s with
  | nil => simp [splitOnChar]
  | cons c t ih =>
    simp only [splitOnChar]
    by_cases h : c = sep
    · rw [if_pos h]
      simp [List.count_cons, h, ih]
    · rw [if_neg h]
      cases hsp : splitOnChar sep t with
      | nil => rw [hsp] at ih; simp at ih
      | cons hd tl =>
        rw [hsp] at ih
        simp only [hsp, List.length_cons, List.count_cons] at ih ⊢
        have hbeq : (c == sep) = false := by simp [h]
        simp only [hbeq, Bool.false_eq_true, if_false]
        omega

theorem specDepth_eq_entryLevel (e : ZipEntry) : specDepth e = entryLevel e := by
  unfold specDepth entryLevel segmentsOf
  rw [splitOnChar_length]
  cases e.isDir <;> simp

theorem zipCount (entries : List ZipEntry) :
    ∀ (m : List (Nat × Nat)) (pm : List (Nat × Str)) (k : Nat),
      mapGetD (entries.foldl zipStep (m, pm)).1 k 0 =
        mapGetD m k 0 + entries.countP (fun e => entryLevel e == k) := by
  induction entries with
  | nil => intro m pm k; simp
  | cons f t ih =>
    intro m pm k
    simp only [List.foldl_cons, zipStep]
    rw [ih]
    rw [mapGetD_mapPut]
    simp only [List.countP_cons]
    by_cases h : entryLevel f = k
    · subst h
      rw [if_pos rfl, if_pos (by simp)]
      omega
    · have h2 : ¬(((fun e : ZipEntry => entryLevel e == k) f) = true) := by simp [h]
      rw [if_neg (fun hh : k = entryLevel f => h hh.symm), if_neg h2]
      omega

theorem zipKeysMem (entries : List ZipEntry) :
    ∀ (m : List (Nat × Nat)) (pm : List (Nat × Str)) (j : Nat),
      (j ∈ ((entries.foldl zipStep (m, pm)).1.map Prod.fst)) ↔
        j ∈ m.map Prod.fst ∨ j ∈ entries.map entryLevel := by
  induction entries with
  | nil => intro m pm j; simp
  | cons f t ih =>
    intro m pm j
    simp only [List.foldl_cons, zipStep, List.map_cons, List.mem_cons]
    rw [ih, keys_mapPut_mem]
    tauto

theorem zipKeysNodup (entries : List ZipEntry) :
    ∀ (m : List (Nat × Nat)) (pm : List (Nat × Str)),
      ((m.map Prod.fst).Nodup) →
      ((entries.foldl zipStep (m, pm)).1.map Prod.fst).Nodup := by
  induction entries with
  | nil => intro m pm h; simpa using h
  | cons f t ih =>
    intro m pm h
    simp only [List.foldl_cons, zipStep]
    exact ih _ _ (keys_mapPut_nodup _ _ _ h)

theorem zipLen (entries : List ZipEntry) :
    (zipScanMaps entries).1.length = (entries.map entryLevel).dedup.length := by
  have hnd : ((zipScanMaps entries).1.map Prod.fst).Nodup :=
    zipKeysNodup entries [] [] (by simp)
  have hmem : ∀ j, j ∈ (zipScanMaps entries).1.map Prod.fst ↔ j ∈ entries.map entryLevel := by
    intro j
    have h := zipKeysMem entries [] [] j
    simpa [zipScanMaps] using h
  have h1 : ((zipScanMaps entries).1.map Prod.fst).toFinset = (entries.map entryLevel).toFinset := by
    ext j
    simp only [List.mem_toFinset]
    exact hmem j
  have h2 := List.toFinset_card_of_nodup hnd
  have h3 := List.card_toFinset (entries.map entryLevel)
  have h4 : (zipScanMaps entries).1.length = ((zipScanMaps entries).1.map Prod.fst).length :=
    (List.length_map _ _).symm
  rw [h4, ← h2, h1, h3]

theorem zipLastDir (entries : List ZipEntry) :
    ∀ (m : List (Nat × Nat)) (pm : List (Nat × Str)) (k : Nat),
      mapGetD (entries.foldl zipStep (m, pm)).2 k [] =
        (match entries.reverse.find? (fun e => e.isDir && entryLevel e == k) with
         | some e => e.name
         | none => mapGetD pm k []) := by
  induction entries with
  | nil => intro m pm k; simp
  | cons f t ih =>
    intro m pm k
    simp only [List.foldl_cons, zipStep]
    rw [ih, List.reverse_cons, List.find?_append]
    cases hf : t.reverse.find? (fun e => e.isDir && entryLevel e == k) with
    | some e => simp
    | none =>
      simp only [Option.none_or]
      cases hd : f.isDir with
      | false => simp [List.find?, hd]
      | true =>
        simp only [List.find?, hd, Bool.true_and, if_true]
        by_cases hk : entryLevel f = k
        · simp only [hk, beq_self_eq_true]
          rw [mapGetD_mapPut, if_pos rfl]
        · have hbeq : (entryLevel f == k) = false := by simp [hk]
          simp only [hbeq]
          rw [mapGetD_mapPut, if_neg (fun hh : k = entryLevel f => hk hh.symm)]

theorem zipEpl (entries : List ZipEntry) (i : Nat) :
    mapGetD (zipScanMaps entries).1 i 0 = specCountAt entries i := by
  have h := zipCount entries [] [] i
  unfold zipScanMaps
  rw [h]
  unfold specCountAt
  rw [show (fun e : ZipEntry => specDepth e == i) = (fun e : ZipEntry => entryLevel e == i) from
    funext fun e => by rw [specDepth_eq_entryLevel]]
  simp [mapGetD]

theorem zipPm (entries : List ZipEntry) (k : Nat) :
    mapGetD (zipScanMaps entries).2 k [] = specLastDirAt entries k := by
  have h := zipLastDir entries [] [] k
  unfold zipScanMaps
  rw [h]
  unfold specLastDirAt
  rw [show (fun e : ZipEntry => e.isDir && specDepth e == k) =
      (fun e : ZipEntry => e.isDir && entryLevel e == k) from
    funext fun e => by rw [specDepth_eq_entryLevel]]
  cases hf : entries.reverse.find? (fun e => e.isDir && entryLevel e == k) <;> simp [mapGetD]

theorem zipLenSpec (entries : List ZipEntry) :
    (zipScanMaps entries).1.length = (entries.map specDepth).dedup.length := by
  rw [zipLen]
  have hfun : specDepth = entryLevel := funext specDepth_eq_entryLevel
  rw [hfun]

theorem prefixToStrip_eq_specStripAmended (entries : List ZipEntry) :
    prefixToStrip entries = specStripAmended entries := by
  have hcond : (fun i => decide (1 < mapGetD (zipScanMaps entries).1 i 0) && decide (0 < i)) =
      (fun i => decide (1 < specCountAt entries i) && decide (0 < i)) := by
    funext i
    rw [zipEpl]
  simp only [prefixToStrip, specStripAmended]
  rw [hcond, zipLenSpec]
  cases hfind : (List.range ((entries.map specDepth).dedup.length)).find?
      (fun i => decide (1 < specCountAt entries i) && decide (0 < i)) with
  | none => simp [hfind]
  | some i => simp [hfind, zipPm]

/-- C2, counterexample: on the archive with one directory per level and all
files two levels below the deepest directory, unzip strips nothing, while
the claimed procedure (scanning depths without bound) strips the deepest
directory name, so the claim as stated is false. -/
theorem c2_counterexample :
    unzip (str "t") deepArchive true ≠ specUnzipClaimed (str "t") deepArchive := by
  decide

/-- C2, amended: with stripping enabled, unzip computes each entry's depth
as the number of slash-separated segments (a file counting its own name and
a directory not), tallies entry counts per depth, records the last
directory name seen at each depth, scans depths from 0 upward while below
the number of distinct depths present, strips at the first depth i with
more than one entry and i positive the directory name recorded at depth
i-1 from every entry's path before writing, and strips nothing when no
such depth exists. -/
theorem c2_strip_algorithm (target : Str) (entries : List ZipEntry) :
    unzip target entries true = specUnzipAmended target entries := by
  unfold unzip specUnzipAmended
  rw [if_pos rfl, prefixToStrip_eq_specStripAmended]

/-- C3: an archive wrapped in a single top directory extracts with the
wrapping prefix stripped, and an archive with several top-level entries
extracts unmodified. -/
theorem c3_zip_examples (target : Str) :
    unzip target wrappedArchive true =
      [FsAction.mkdirAll target, FsAction.mkdirAll (target ++ str "/bin"),
       FsAction.writeFile (target ++ str "/bin/java"), FsAction.mkdirAll (target ++ str "/lib"),
       FsAction.writeFile (target ++ str "/lib/x.jar")]
    ∧ unzip target multiTopArchive true =
      [FsAction.mkdirAll (target ++ str "/a"), FsAction.writeFile (target ++ str "/a/file1"),
       FsAction.mkdirAll (target ++ str "/b"), FsAction.writeFile (target ++ str "/b/file2")] :=
  ⟨rfl, rfl⟩

theorem toStr_ne_nil (v : Version) : v.toStr ≠ [] := by
  unfold Version.toStr
  intro h
  cases hx : (Nat.repr v.major).data with
  | nil => rw [hx] at h; simp at h
  | cons c cs => rw [hx] at h; simp at h

theorem Version.le_refl (v : Version) : Version.le v v := by
  unfold Version.le
  omega

theorem any_equals_true {v : Version} {installed : List Version} (h : v ∈ installed) :
    installed.any (fun w => v.Equals w) = true :=
  List.any_eq_true.mpr ⟨v, h, by simp [Version.Equals]⟩

theorem any_equals_false {v : Version} {installed : List Version} (h : v ∉ installed) :
    installed.any (fun w => v.Equals w) = false := by
  rw [List.any_eq_false]
  intro x hx
  simp only [Version.Equals, decide_eq_true_eq]
  exact fun he => h (he ▸ hx)

theorem install_nonpin (env : Env) (selector : Str)
    (hsel : selector.contains '=' = false)
    (hnp : match ParseVersion selector with
           | .error _ => True
           | .ok v => ∃ installed, env.ls = .ok installed ∧ v ∉ installed) :
    Install env selector = installResolve env selector := by
  unfold Install
  rw [if_neg (by rw [hsel]; exact fun hh => Bool.noConfusion hh)]
  cases hp : ParseVersion selector with
  | error e => rfl
  | ok v =>
    rw [hp] at hnp
    obtain ⟨installed, hls, hmem⟩ := hnp
    rw [hls]
    simp only [any_equals_false hmem, Bool.false_eq_true, if_false]

/-- C4: a selector that parses as an exact version (the part before the
equals sign for a pin, the whole selector otherwise) whose version is
already installed makes Install return that version's string at once, with
no error and no download, dispatch or removal effect. -/
theorem c4_already_installed (env : Env) (selector : Str) (v : Version)
    (installed : List Version)
    (hls : env.ls = .ok installed)
    (hparse : ParseVersion (effectiveSelector selector) = .ok v)
    (hmem : v ∈ installed) :
    Install env selector = ⟨v.toStr, none, []⟩ := by
  unfold effectiveSelector at hparse
  unfold Install
  by_cases h : selector.contains '='
  · rw [if_pos h] at hparse
    rw [if_pos h]
    simp only [hparse, hls, any_equals_true hmem, if_true]
  · rw [if_neg h] at hparse
    rw [if_neg h, hparse, hls]
    simp only [any_equals_true hmem, if_true]

theorem c4_witness : Install c4Env (str "1.8.0") = ⟨str "1.8.0", none, []⟩ :=
  c4_already_installed c4Env (str "1.8.0") ⟨1, 8, 0⟩ [⟨1, 8, 0⟩] rfl rfl (by decide)

theorem dispatchConsistent_nodispatch (ver : Str) (err : Option Str) (tr : List Action)
    (htr : ∀ vs, Action.dispatch vs ∉ tr) :
    dispatchConsistent ⟨ver, err, tr⟩ := by
  refine ⟨fun vs hmem => absurd hmem (htr vs), fun _ vs => htr vs⟩

theorem mem_dispatch3 {vs vs0 file : Str} {tr : List Action}
    (htr : ∀ w, Action.dispatch w ∉ tr)
    (hmem : Action.dispatch vs ∈ tr ++ [Action.dispatch vs0] ++ [Action.removeFile file]) :
    vs0 = vs := by
  simp only [List.append_assoc, List.mem_append, List.mem_singleton] at hmem
  rcases hmem with h | h | h
  · exact absurd h (htr vs)
  · cases h
    rfl
  · cases h

theorem mem_dispatch2 {vs vs0 : Str} {tr : List Action}
    (htr : ∀ w, Action.dispatch w ∉ tr)
    (hmem : Action.dispatch vs ∈ tr ++ [Action.dispatch vs0]) :
    vs0 = vs := by
  simp only [List.mem_append, List.mem_singleton] at hmem
  rcases hmem with h | h
  · exact absurd h (htr vs)
  · cases h
    rfl

theorem dispatchStep_c10 (env : Env) (ver : Version) (file ft : Str) (del : Bool)
    (tr : List Action) (htr : ∀ vs, Action.dispatch vs ∉ tr) :
    dispatchConsistent (dispatchStep env ver file ft del tr) := by
  unfold dispatchConsistent dispatchStep
  dsimp only
  split
  · exact ⟨fun vs hmem => mem_dispatch3 htr hmem,
           fun hnil => absurd hnil (toStr_ne_nil ver)⟩
  · exact ⟨fun vs hmem => mem_dispatch2 htr hmem,
           fun hnil => absurd hnil (toStr_ne_nil ver)⟩

theorem installFromUrl_c10 (env : Env) (ver : Version) (url : Str) :
    dispatchConsistent (installFromUrl env ver url) := by
  unfold installFromUrl
  split
  · dsimp only
    split
    · exact dispatchStep_c10 env ver _ _ false [] (by simp)
    · cases hdl : env.dl ((url.dropWhile (fun c => c != '+')).drop 1) with
      | error e => exact dispatchConsistent_nodispatch _ _ _ (by simp)
      | ok f => exact dispatchStep_c10 env ver _ _ true _ (by simp)
  · exact dispatchConsistent_nodispatch _ _ _ (by simp)

theorem installResolve_c10 (env : Env) (selector : Str) :
    dispatchConsistent (installResolve env selector) := by
  unfold installResolve
  cases hpr : ParseRange selector with
  | error e => exact dispatchConsistent_nodispatch _ _ _ (by simp)
  | ok rng =>
    dsimp only
    cases hlr : env.lsRemote with
    | error e => exact dispatchConsistent_nodispatch _ _ _ (by simp)
    | ok catalog =>
      dsimp only
      cases hf : (sortDesc catalog).find? (fun e => rng.Contains e.1) with
      | some e => exact installFromUrl_c10 env e.1 e.2
      | none => exact dispatchConsistent_nodispatch _ _ _ (by simp)

/-- C10: whenever Install reaches the platform-dispatch step its first
return value is the resolved version string, even alongside a non-nil
error; the empty string is returned only on failures before dispatch. -/
theorem c10_version_on_dispatch (env : Env) (selector : Str) :
    (∀ vs, Action.dispatch vs ∈ (Install env selector).trace → (Install env selector).ver = vs)
    ∧ ((Install env selector).ver = [] →
        ∀ vs, Action.dispatch vs ∉ (Install env selector).trace) := by
  have main : dispatchConsistent (Install env selector) := by
    unfold Install
    split
    · dsimp only
      cases hpv : ParseVersion (selector.takeWhile (fun c => c != '=')) with
      | error e => exact dispatchConsistent_nodispatch _ _ _ (by simp)
      | ok ver =>
        dsimp only
        cases hls : env.ls with
        | error e => exact dispatchConsistent_nodispatch _ _ _ (by simp)
        | ok installed =>
          dsimp only
          split
          · exact dispatchConsistent_nodispatch _ _ _ (by simp)
          · exact installFromUrl_c10 env ver _
    · cases hpv : ParseVersion selector with
      | error e => exact installResolve_c10 env selector
      | ok ver =>
        dsimp only
        cases hls : env.ls with
        | error e => exact dispatchConsistent_nodispatch _ _ _ (by simp)
        | ok installed =>
          dsimp only
          split
          · exact dispatchConsistent_nodispatch _ _ _ (by simp)
          · exact installResolve_c10 env selector
  exact main

theorem c10_witness : (Install caretEnv (str "^1.8.0")).ver = str "1.8.1" :=
  (c10_version_on_dispatch caretEnv (str "^1.8.0")).1 (str "1.8.1") (by decide)

/-- C6: a resolved source string that does not match the
word-plus-word-colon-slash-slash pattern makes the install fail with the
qualifier error before any download action, both at the acquisition step
and through Install for a pin whose version is not yet installed. -/
theorem c6_qualifier_mandatory (env : Env) (ver : Version) (url selector : Str)
    (v : Version) (installed : List Version) :
    (urlQualifierOk url = false →
      installFromUrl env ver url =
        ⟨[], some (str "URL must contain qualifier, e.g. tgz+http://..."), []⟩)
    ∧ (selector.contains '=' = true →
       ParseVersion (selector.takeWhile (fun c => c != '=')) = .ok v →
       env.ls = .ok installed →
       v ∉ installed →
       urlQualifierOk ((selector.dropWhile (fun c => c != '=')).drop 1) = false →
       Install env selector =
         ⟨[], some (str "URL must contain qualifier, e.g. tgz+http://..."), []⟩) := by
  constructor
  · intro h
    unfold installFromUrl
    rw [if_neg (by rw [h]; exact fun hh => Bool.noConfusion hh)]
  · intro hsel hparse hls hmem hqual
    unfold Install
    rw [if_pos hsel]
    dsimp only
    simp only [hparse, hls, any_equals_false hmem, Bool.false_eq_true, if_false]
    unfold installFromUrl
    rw [if_neg (by rw [hqual]; exact fun hh => Bool.noConfusion hh)]

theorem c6_witness :
    Install c6Env (str "1.8.0=http://host/file.tgz") =
      ⟨[], some (str "URL must contain qualifier, e.g. tgz+http://..."), []⟩ :=
  (c6_qualifier_mandatory c6Env ⟨1, 8, 0⟩ [] (str "1.8.0=http://host/file.tgz")
    ⟨1, 8, 0⟩ []).2 (by decide) rfl rfl (by decide) (by decide)

/-- C8: with a valid qualifier, a source using the local-file scheme never
produces a file-removal effect; a downloaded file is removed exactly when
the dispatched install reports no error; and a failed download produces no
removal either. -/
theorem c8_temp_cleanup (env : Env) (ver : Version) (url f e : Str)
    (hqual : urlQualifierOk url = true) :
    ((str "file://").isPrefixOf ((url.dropWhile (fun c => c != '+')).drop 1) = true →
      ∀ p, Action.removeFile p ∉ (installFromUrl env ver url).trace)
    ∧ ((str "file://").isPrefixOf ((url.dropWhile (fun c => c != '+')).drop 1) = false →
       env.dl ((url.dropWhile (fun c => c != '+')).drop 1) = .ok f →
       (Action.removeFile f ∈ (installFromUrl env ver url).trace ↔
         (installFromUrl env ver url).err = none))
    ∧ ((str "file://").isPrefixOf ((url.dropWhile (fun c => c != '+')).drop 1) = false →
       env.dl ((url.dropWhile (fun c => c != '+')).drop 1) = .error e →
       ∀ p, Action.removeFile p ∉ (installFromUrl env ver url).trace) := by
  refine ⟨?_, ?_, ?_⟩
  · intro hpfx p
    unfold installFromUrl
    rw [if_pos hqual]
    dsimp only
    rw [if_pos hpfx]
    unfold dispatchStep
    dsimp only
    rw [Bool.and_false]
    simp
  · intro hpfx hdl
    unfold installFromUrl
    rw [if_pos hqual]
    dsimp only
    simp only [hpfx, Bool.false_eq_true, if_false, hdl]
    unfold dispatchStep
    dsimp only
    rw [Bool.and_true]
    cases herr : (dispatchErr env ver.toStr f (url.takeWhile (fun c => c != '+'))).isNone with
    | true =>
      rw [if_pos rfl]
      rw [show ((⟨ver.toStr, dispatchErr env ver.toStr f (url.takeWhile (fun c => c != '+')),
        [Action.download ((url.dropWhile (fun c => c != '+')).drop 1)] ++ [Action.dispatch ver.toStr] ++
          [Action.removeFile f]⟩ : InstallResult)).err =
        dispatchErr env ver.toStr f (url.takeWhile (fun c => c != '+')) from rfl]
      rw [← Option.isNone_iff_eq_none, herr]
      simp
    | false =>
      rw [if_neg (fun hh : false = true => Bool.noConfusion hh)]
      rw [show ((⟨ver.toStr, dispatchErr env ver.toStr f (url.takeWhile (fun c => c != '+')),
        [Action.download ((url.dropWhile (fun c => c != '+')).drop 1)] ++
          [Action.dispatch ver.toStr]⟩ : InstallResult)).err =
        dispatchErr env ver.toStr f (url.takeWhile (fun c => c != '+')) from rfl]
      rw [← Option.isNone_iff_eq_none, herr]
      simp
  · intro hpfx hdl p
    unfold installFromUrl
    rw [if_pos hqual]
    dsimp only
    simp only [hpfx, Bool.false_eq_true, if_false, hdl]
    simp

theorem c8_witness :
    Action.removeFile (str "/tmp/jabba-d-1") ∈
      (installFromUrl caretEnv ⟨1, 8, 1⟩ (str "tgz+https://example.com/jdk181")).trace ↔
    (installFromUrl caretEnv ⟨1, 8, 1⟩ (str "tgz+https://example.com/jdk181")).err = none :=
  (c8_temp_cleanup caretEnv ⟨1, 8, 1⟩ (str "tgz+https://example.com/jdk181")
    (str "/tmp/jabba-d-1") [] (by decide)).2.1 (by decide) rfl

theorem find?_sorted_maximal (l : List (Version × Str)) (p : Version × Str → Bool)
    (e : Version × Str) (hs : List.Sorted descRel l) (hf : l.find? p = some e) :
    ∀ x ∈ l, p x = true → Version.le x.1 e.1 := by
  induction l with
  | nil => simp at hf
  | cons a t ih =>
    intro x hx hp
    rw [List.find?_cons] at hf
    cases ha : p a with
    | true =>
      rw [ha] at hf
      cases hf
      rcases List.mem_cons.mp hx with rfl | hxt
      · exact Version.le_refl x.1
      · exact (List.sorted_cons.mp hs).1 x hxt
    | false =>
      rw [ha] at hf
      rcases List.mem_cons.mp hx with rfl | hxt
      · rw [hp] at ha
        exact Bool.noConfusion ha
      · exact ih (List.sorted_cons.mp hs).2 hf x hxt hp

/-- C1: for a selector that is not a pin (and, when it parses as an exact
version, is not already installed) Install runs remote resolution; the
resolution takes the first entry of the descending-sorted catalog whose
version the parsed range contains, which is a newest matching catalog
entry; and on the catalog with 1.8.0, 1.8.1 and 9.0.0 the caret selector
1.8.0 resolves to 1.8.1, not 9.0.0. -/
theorem c1_range_resolution (env : Env) (selector : Str) (rng : Range)
    (catalog : List (Version × Str)) (e : Version × Str) :
    ((selector.contains '=' = false →
      (match ParseVersion selector with
       | .error _ => True
       | .ok v => ∃ installed, env.ls = .ok installed ∧ v ∉ installed) →
      Install env selector = installResolve env selector))
    ∧ (ParseRange selector = .ok rng → env.lsRemote = .ok catalog →
       (sortDesc catalog).find? (fun x => rng.Contains x.1) = some e →
       installResolve env selector = installFromUrl env e.1 e.2
       ∧ e ∈ catalog ∧ rng.Contains e.1 = true
       ∧ ∀ x ∈ catalog, rng.Contains x.1 = true → Version.le x.1 e.1)
    ∧ Install caretEnv (str "^1.8.0") =
        ⟨str "1.8.1", none,
         [Action.download (str "https://example.com/jdk181"),
          Action.dispatch (str "1.8.1"),
          Action.removeFile (str "/tmp/jabba-d-1")]⟩ := by
  refine ⟨install_nonpin env selector, ?_, by decide⟩
  intro hrng hcat hfind
  have hperm := List.perm_insertionSort descRel catalog
  refine ⟨?_, ?_, ?_, ?_⟩
  · unfold installResolve
    rw [hrng, hcat]
    dsimp only
    rw [hfind]
  · exact hperm.mem_iff.mp (List.mem_of_find?_eq_some hfind)
  · simpa using List.find?_some hfind
  · intro x hx hpx
    exact find?_sorted_maximal (sortDesc catalog) (fun x => rng.Contains x.1) e
      (List.sorted_insertionSort descRel catalog) hfind x (hperm.mem_iff.mpr hx) hpx

theorem c1_witness :
    installResolve caretEnv (str "^1.8.0") =
      installFromUrl caretEnv ⟨1, 8, 1⟩ (str "tgz+https://example.com/jdk181") :=
  ((c1_range_resolution caretEnv (str "^1.8.0") (Range.caret ⟨1, 8, 0⟩)
    [(⟨1, 8, 0⟩, str "tgz+https://example.com/jdk180"),
     (⟨1, 8, 1⟩, str "tgz+https://example.com/jdk181"),
     (⟨9, 0, 0⟩, str "tgz+https://example.com/jdk900")]
    (⟨1, 8, 1⟩, str "tgz+https://example.com/jdk181")).2.1 rfl rfl (by decide)).1

/-- C7: for a non-pin selector that reaches remote resolution, when no
catalog version satisfies the parsed range, Install fails with the message
listing every catalog version (descending) as the valid install targets,
and every catalog version's string occurs in that list. -/
theorem c7_no_match_error (env : Env) (selector : Str) (rng : Range)
    (catalog : List (Version × Str))
    (hsel : selector.contains '=' = false)
    (hnp : match ParseVersion selector with
           | .error _ => True
           | .ok v => ∃ installed, env.ls = .ok installed ∧ v ∉ installed)
    (hrng : ParseRange selector = .ok rng)
    (hcat : env.lsRemote = .ok catalog)
    (hnone : ∀ x ∈ catalog, rng.Contains x.1 = false) :
    Install env selector =
      ⟨[], some (str "No compatible version found for " ++ selector ++
        str "\nValid install targets: " ++
        List.intercalate (str ", ") ((sortDesc catalog).map (fun x => x.1.toStr))), []⟩
    ∧ ∀ x ∈ catalog, x.1.toStr ∈ (sortDesc catalog).map (fun x => x.1.toStr) := by
  have hperm := List.perm_insertionSort descRel catalog
  have hfind : (sortDesc catalog).find? (fun x => rng.Contains x.1) = none := by
    rw [List.find?_eq_none]
    intro x hx hpx
    rw [hnone x (hperm.mem_iff.mp hx)] at hpx
    exact Bool.noConfusion hpx
  constructor
  · rw [install_nonpin env selector hsel hnp]
    unfold installResolve
    rw [hrng, hcat]
    dsimp only
    rw [hfind]
  · intro x hx
    exact List.mem_map_of_mem _ (hperm.mem_iff.mpr hx)

theorem c7_witness :
    Install c7Env (str "^1.8.0") =
      ⟨[], some (str "No compatible version found for " ++ str "^1.8.0" ++
        str "\nValid install targets: " ++
        List.intercalate (str ", ")
          ((sortDesc [(⟨9, 0, 0⟩, str "tgz+https://example.com/jdk900")]).map
            (fun x => x.1.toStr))), []⟩ :=
  (c7_no_match_error c7Env (str "^1.8.0") (Range.caret ⟨1, 8, 0⟩)
    [(⟨9, 0, 0⟩, str "tgz+https://example.com/jdk900")]
    (by decide) trivial rfl rfl (by decide)).1

theorem finishInstall_fail (env : OsEnv) (target home : Str) (e0 : Option Str)
    (h : e0 ≠ none ∨ env.pathExists (home ++ str "/bin/java") = false) :
    (finishInstall env target home e0).1 ≠ none ∧
    (finishInstall env target home e0).2 = [FsAction.removeAll target] := by
  unfold finishInstall
  cases e0 with
  | some e => exact ⟨by simp, rfl⟩
  | none =>
    dsimp only
    rcases h with h | h
    · exact absurd rfl h
    · unfold assertContentIsValid
      rw [if_neg (by rw [h]; exact fun hh => Bool.noConfusion hh)]
      exact ⟨by simp, rfl⟩

/-- C5: on both supported platforms, when extraction fails or the
post-extraction validation finds no bin/java under the resolved home
directory, the per-OS installer removes the whole target tree rooted at
the jdk directory of the version and returns the error. -/
theorem c5_cleanup_on_failure (env : OsEnv) (ver file fileType : Str) :
    ((fileType = str "bin" ∧
        (env.binRes file (env.cfgDir ++ str "/jdk/" ++ ver) ≠ none ∨
         env.pathExists ((env.cfgDir ++ str "/jdk/" ++ ver) ++ str "/bin/java") = false)
      ∨ fileType = str "tgz" ∧
        (env.tgzRes file (env.cfgDir ++ str "/jdk/" ++ ver) ≠ none ∨
         env.pathExists ((env.cfgDir ++ str "/jdk/" ++ ver) ++ str "/bin/java") = false)
      ∨ fileType = str "zip" ∧
        (env.zipRes file (env.cfgDir ++ str "/jdk/" ++ ver) ≠ none ∨
         env.pathExists ((env.cfgDir ++ str "/jdk/" ++ ver) ++ str "/bin/java") = false)) →
      (installOnLinux env ver file fileType).1 ≠ none ∧
      (installOnLinux env ver file fileType).2 =
        [FsAction.removeAll (env.cfgDir ++ str "/jdk/" ++ ver)])
    ∧ ((fileType = str "dmg" ∧
          (env.dmgRes file (env.cfgDir ++ str "/jdk/" ++ ver) ≠ none ∨
           env.pathExists (((env.cfgDir ++ str "/jdk/" ++ ver) ++ str "/Contents/Home") ++
             str "/bin/java") = false)
        ∨ fileType = str "zip" ∧
          (env.zipRes file ((env.cfgDir ++ str "/jdk/" ++ ver) ++ str "/Contents/Home") ≠ none ∨
           env.pathExists (((env.cfgDir ++ str "/jdk/" ++ ver) ++ str "/Contents/Home") ++
             str "/bin/java") = false)) →
      (installOnDarwin env ver file fileType).1 ≠ none ∧
      (installOnDarwin env ver file fileType).2 =
        [FsAction.removeAll (env.cfgDir ++ str "/jdk/" ++ ver)]) := by
  constructor
  · intro h
    unfold installOnLinux
    dsimp only
    rcases h with ⟨rfl, hfail⟩ | ⟨rfl, hfail⟩ | ⟨rfl, hfail⟩
    · rw [if_pos rfl]
      exact finishInstall_fail env _ _ _ hfail
    · rw [if_neg (by decide), if_pos rfl]
      exact finishInstall_fail env _ _ _ hfail
    · rw [if_neg (by decide), if_neg (by decide), if_pos rfl]
      exact finishInstall_fail env _ _ _ hfail
  · intro h
    unfold installOnDarwin
    dsimp only
    rcases h with ⟨rfl, hfail⟩ | ⟨rfl, hfail⟩
    · rw [if_pos rfl]
      exact finishInstall_fail env _ _ _ hfail
    · rw [if_neg (by decide), if_pos rfl]
      exact finishInstall_fail env _ _ _ hfail

theorem c5_witness :
    (installOnLinux c5Env (str "1.8.0") (str "/tmp/fake.tgz") (str "tgz")).1 ≠ none ∧
    (installOnLinux c5Env (str "1.8.0") (str "/tmp/fake.tgz") (str "tgz")).2 =
      [FsAction.removeAll (c5Env.cfgDir ++ str "/jdk/" ++ str "1.8.0")] :=
  (c5_cleanup_on_failure c5Env (str "1.8.0") (str "/tmp/fake.tgz") (str "tgz")).1
    (Or.inr (Or.inl ⟨rfl, Or.inr rfl⟩))

/-- C9, counterexample: download can fail although the response was
delivered without any transport error and its body would have been saved:
it is enough that creating the temporary file fails, so transport failures
and the redirect limit are not the only failure sources. -/
theorem c9_counterexample :
    ¬ (∀ (env : DlEnv) (url : Str), (download env url).2 ≠ none →
        (match env.doResult with | .error _ => True | .ok _ => False) ∨ env.copyRes ≠ none) := by
  intro h
  rcases h dlEnvBad (str "http://example.com/jdk.tgz") (by decide) with hcase | hcase
  · exact hcase
  · exact hcase rfl

/-- C9, amended: download never inspects the status code: whenever the
temporary file is created and the response is delivered without a
transport error and its body is saved, it returns the temporary path with
no error, whatever the status code; it fails exactly when temporary-file
creation, the request itself, or saving the body fails; and the redirect
callback errors exactly when ten or more requests precede the current
one. -/
theorem c9_download_behavior (env : DlEnv) (url : Str) (p : Str) (resp : HttpResponse) :
    (env.tempFile = .ok p → env.doResult = .ok resp → env.copyRes = none →
      download env url = (p, none))
    ∧ (∀ n, download (setStatus env n) url = download env url)
    ∧ ((download env url).2 ≠ none ↔
        ((match env.tempFile with | .error _ => True | .ok _ => False)
         ∨ (match env.doResult with | .error _ => True | .ok _ => False)
         ∨ env.copyRes ≠ none))
    ∧ (∀ (req : List (Str × Str)) (via : List (List (Str × Str))),
        (∃ e2, checkRedirect req via = .error e2) ↔ 10 ≤ via.length) := by
  refine ⟨?_, ?_, ?_, ?_⟩
  · intro h1 h2 h3
    simp only [download, h1, h2, h3]
  · intro n
    unfold download setStatus
    dsimp only
    cases env.tempFile with
    | error e => rfl
    | ok f =>
      dsimp only
      cases env.doResult with
      | error e => rfl
      | ok r =>
        dsimp only [Except.map]
  · unfold download
    cases env.tempFile with
    | error e => simp
    | ok f =>
      dsimp only
      cases env.doResult with
      | error e => simp
      | ok r =>
        dsimp only
        cases env.copyRes with
        | some e => simp
        | none => simp
  · intro req via
    unfold checkRedirect
    by_cases h : via.length ≥ 10
    · rw [if_pos h]
      exact ⟨fun _ => h, fun _ => ⟨str "too many redirects", rfl⟩⟩
    · rw [if_neg h]
      constructor
      · intro hex
        rcases hex with ⟨e2, he⟩
        cases via with
        | nil => exact Except.noConfusion he
        | cons a t => exact Except.noConfusion he
      · intro hh
        exact absurd hh h

theorem c9_witness :
    download dlEnv404 (str "http://example.com/missing.tgz") = (str "/tmp/jabba-d-2", none) :=
  (c9_download_behavior dlEnv404 (str "http://example.com/missing.tgz")
    (str "/tmp/jabba-d-2") ⟨404, 0⟩).1 rfl rfl rfl

end Jabba
